import Mathlib

/-!
Verification of the RedClient RESP codec (`src/RedClient/RESP/datastructures.py`,
`src/RedClient/RESP/connection.py`) and of the pub/sub subscription state machine
(`src/RedClient/PubSub.py`).

Bytes are modelled as lists of natural numbers (each intended to be < 256).
Python strings that the code restricts to ASCII (SimpleString / Error payloads and
channel names) are modelled by their lists of ASCII codes, so that `bytes.decode("ascii")`
is the identity guarded by the check that every byte is < 128.
-/

namespace RedClient

/-- Byte sequences (Python `bytes`). -/
abbrev Bytes := List Nat

/-! ## Decimal digits: model of Python `str(n)` and `int(b)` -/

/-- Accumulator loop for rendering a natural number in decimal, most significant digit
first.  The first argument is fuel; `natToDigits` supplies enough of it, and the
fuel-structural definition keeps the function reducible by the kernel. -/
def natToDigitsGo : Nat → Nat → Bytes → Bytes
  | 0, _, acc => acc
  | fuel + 1, n, acc =>
    if n = 0 then acc else natToDigitsGo fuel (n / 10) ((n % 10 + 48) :: acc)

/-- ASCII decimal rendering of a natural number, i.e. Python `str(n).encode()` for
nonnegative `n`. -/
def natToDigits (n : Nat) : Bytes :=
  if n = 0 then [48] else natToDigitsGo n n []

/-- ASCII decimal rendering of an integer, i.e. Python `str(n).encode()`. -/
def intEncode (n : Int) : Bytes :=
  if n < 0 then 45 :: natToDigits (-n).toNat else natToDigits n.toNat

/-- Left-to-right accumulation of decimal digit characters; fails on the first
non-digit character. -/
def parseDigitsAux : Bytes → Nat → Option Nat
  | [], acc => some acc
  | c :: rest, acc =>
    if 48 ≤ c ∧ c ≤ 57 then parseDigitsAux rest (10 * acc + (c - 48)) else none

/-- Parse a nonempty string of decimal digit characters. -/
def parseDigits : Bytes → Option Nat
  | [] => none
  | c :: rest => parseDigitsAux (c :: rest) 0

/-- The characters Python `int()` strips from both ends of its argument. -/
def isPySpace (c : Nat) : Bool :=
  c = 32 || c = 9 || c = 10 || c = 13 || c = 11 || c = 12

/-- Strip leading and trailing whitespace, as Python `int()` does. -/
def stripWS (l : Bytes) : Bytes :=
  ((l.dropWhile (fun c => isPySpace c)).reverse.dropWhile (fun c => isPySpace c)).reverse

/-- Model of Python `int(b)` on a `bytes` argument: strip whitespace, then an optional
sign followed by decimal digits.  (CPython additionally allows single underscores
between digits; no claim depends on that and it is not modelled.)  `none` models the
`ValueError` that `int()` raises on malformed input. -/
def pyIntParseCore : Bytes → Option Int
  | [] => none
  | c :: rest =>
    if c = 43 then (parseDigits rest).map (fun n : Nat => (n : Int))
    else if c = 45 then (parseDigits rest).map (fun n : Nat => -(n : Int))
    else (parseDigits (c :: rest)).map (fun n : Nat => (n : Int))

/-- Model of Python `int(b)`: strip whitespace, then parse sign and digits. -/
def pyIntParse (b : Bytes) : Option Int :=
  pyIntParseCore (stripWS b)

/-! ## The RESP value model (`datastructures.py`) -/

mutual

/-- RESP values, the closed variant set of `datastructures.py`.  `simpleString` and
`error` hold the ASCII codes of the stored Python `str`; `bulkString` holds raw
bytes; `array` holds values recursively. -/
inductive Value where
  | simpleString (s : Bytes)
  | error (s : Bytes)
  | integer (n : Int)
  | bulkString (b : Bytes)
  | array (items : ValueList)
  | null
deriving DecidableEq, Repr

/-- Lists of RESP values (a separate mutual inductive so that all functions on values
are structurally recursive and kernel-reducible). -/
inductive ValueList where
  | nil
  | cons (v : Value) (vs : ValueList)
deriving DecidableEq, Repr

end

/-- Length of a `ValueList`, i.e. Python `len(self._items)` of an `Array`. -/
def lengthVL : ValueList → Nat
  | .nil => 0
  | .cons _ vs => lengthVL vs + 1

mutual

/-- The `serialize()` methods of `datastructures.py`, variant by variant:
`+s\r\n`, `-s\r\n`, `:n\r\n`, `$len\r\n b \r\n`, `*len\r\n` followed by the items'
serializations, and `$-1\r\n` for `Null`. -/
def serialize : Value → Bytes
  | .simpleString s => 43 :: (s ++ [13, 10])
  | .error s => 45 :: (s ++ [13, 10])
  | .integer n => 58 :: (intEncode n ++ [13, 10])
  | .bulkString b => 36 :: (natToDigits b.length ++ [13, 10] ++ b ++ [13, 10])
  | .array items => 42 :: (natToDigits (lengthVL items) ++ [13, 10] ++ serializeList items)
  | .null => [36, 45, 49, 13, 10]

/-- Concatenation of the serializations of the items of an `Array`, in order
(the loop in `Array.serialize`). -/
def serializeList : ValueList → Bytes
  | .nil => []
  | .cons v vs => serialize v ++ serializeList vs

end

mutual

/-- Well-formedness used by the round-trip claim: `SimpleString`/`Error` text is ASCII
free of CR and LF, `BulkString` holds arbitrary bytes, arrays are well-formed
elementwise. -/
def wf : Value → Bool
  | .simpleString s => s.all (fun c => c < 128 && c ≠ 13 && c ≠ 10)
  | .error s => s.all (fun c => c < 128 && c ≠ 13 && c ≠ 10)
  | .integer _ => true
  | .bulkString b => b.all (fun c => c < 256)
  | .array items => wfList items
  | .null => true

/-- Elementwise well-formedness of a value list. -/
def wfList : ValueList → Bool
  | .nil => true
  | .cons v vs => wf v && wfList vs

end

mutual

/-- Number of `Connection.receive` invocations needed to decode a value (1 for a leaf,
1 plus the elements' total for an array); used as a sufficient fuel bound. -/
def frames : Value → Nat
  | .array items => framesList items + 1
  | _ => 1

/-- Total frame count of a value list. -/
def framesList : ValueList → Nat
  | .nil => 0
  | .cons v vs => frames v + framesList vs

end

/-! ## Connection model (`connection.py`) -/

/-- The read side of the TCP stream: the bytes still to be delivered, and whether the
peer has closed the stream after them (`asyncio.StreamReader`). -/
structure ReaderState where
  buffer : Bytes
  eof : Bool
deriving DecidableEq, Repr

/-- The write side of the stream: whether it is closing, and the bytes written so far
(`asyncio.StreamWriter`). -/
structure WriterState where
  closing : Bool
  sent : Bytes
deriving DecidableEq, Repr

/-- The `Connection` object's state: `self.reader` and `self.writer`, each possibly
`None`. -/
structure Conn where
  reader : Option ReaderState
  writer : Option WriterState
deriving DecidableEq, Repr

/-- The exceptions that can escape the modelled methods.  `parsing`, `connClosed`,
`timeout` are `Connection.ParsingError` / `ConnectionClosedError` / `TimeoutError`;
`indexErr`, `valueErr` and `attrErr` are the Python built-in `IndexError`,
`ValueError` and `AttributeError`; `unexpectedResponse` is
`Subscriber.UnexpectedResponseError`; `blocked` marks a read that would suspend
forever (no timeout set and the needed bytes never arrive); `fuelOut` marks
exhaustion of the artificial recursion fuel. -/
inductive PyErr where
  | parsing
  | connClosed
  | timeout
  | indexErr
  | valueErr
  | attrErr
  | unexpectedResponse
  | blocked
  | fuelOut
deriving DecidableEq, Repr

/-- Decidable equality for `Except`, used to state and evaluate the results of the
modelled methods. -/
instance instDecEqExcept {ε α : Type} [DecidableEq ε] [DecidableEq α] :
    DecidableEq (Except ε α) := fun x y =>
  match x, y with
  | .ok a, .ok b => decidable_of_iff (a = b) (by simp)
  | .error a, .error b => decidable_of_iff (a = b) (by simp)
  | .ok _, .error _ => .isFalse (by simp)
  | .error _, .ok _ => .isFalse (by simp)

/-- Split a byte sequence at its first LF: returns the bytes before the LF and the
bytes after it (`StreamReader.readuntil(b"\n")` delivers the first part plus the LF
and leaves the second part buffered).  `none` means no LF is available yet. -/
def splitAtLF : Bytes → Option (Bytes × Bytes)
  | [] => none
  | c :: rest =>
    if c = 10 then some ([], rest)
    else (splitAtLF rest).map (fun pq => (c :: pq.1, pq.2))

/-- The `connected()` method: `False` if either stream handle is `None`, the reader is
at EOF, or the writer is closing. -/
def Conn.connected (c : Conn) : Bool :=
  match c.reader, c.writer with
  | some r, some w => !(r.eof && r.buffer.isEmpty) && !w.closing
  | _, _ => false

/-- The `disconnect()` method: close the writer and clear both stream handles. -/
def Conn.disconnect (_ : Conn) : Conn :=
  { reader := none, writer := none }

/-- The `send(obj)` method: pre-flight `connected()` check (disconnecting and raising
`ConnectionClosedError` on failure), then write the serialized bytes. -/
def Conn.sendVal (v : Value) (c : Conn) : Except PyErr Unit × Conn :=
  if c.connected then
    match c.writer with
    | some w =>
      (.ok (), { c with writer := some { w with sent := w.sent ++ serialize v } })
    | none => (.error .connClosed, c.disconnect)
  else (.error .connClosed, c.disconnect)

/-- The `for _ in range(arraySize)` loop of the `*` branch of `receive`: run the
element receiver `n` times, appending each element.  A `None` element makes
`Array.append` raise the built-in `ValueError`; errors propagate. -/
def receiveMany (recv1 : Conn → (Except PyErr (Option Value)) × Conn) :
    Nat → Conn → (Except PyErr ValueList) × Conn
  | 0, c => (.ok .nil, c)
  | n + 1, c =>
    match recv1 c with
    | (.error e, c1) => (.error e, c1)
    | (.ok none, c1) => (.error .valueErr, c1)
    | (.ok (some v), c1) =>
      match receiveMany recv1 n c1 with
      | (.error e, c2) => (.error e, c2)
      | (.ok vs, c2) => (.ok (.cons v vs), c2)

/-- The `receive(timeout)` method of `connection.py`, line by line.  The first
argument models the truthiness of the `timeout` parameter; the second is recursion
fuel (an artifact of the embedding — any fuel of at least `frames` of the incoming
value is sufficient).  The result pairs the returned value (`some` a RESP value, or
`none` for the fall-through `return` that yields Python `None`) or the raised
exception with the connection state afterwards. -/
def receiveF (timeout : Bool) : Nat → Conn → (Except PyErr (Option Value)) × Conn
  | 0 => fun c => (.error .fuelOut, c)
  | fuel + 1 => fun c =>
    match c.reader with
    | none => (.error .attrErr, c)
    | some r =>
      match splitAtLF r.buffer with
      | none =>
        -- readuntil cannot complete: IncompleteReadError at EOF (caught: disconnect
        -- and raise ConnectionClosedError), else suspend (TimeoutError if a timeout
        -- was set).
        if r.eof then (.error .connClosed, c.disconnect)
        else if timeout then (.error .timeout, c)
        else (.error .blocked, c)
      | some (p, rest) =>
        -- the delivered line is p ++ [10]; the check `line[-2] != ord("\r")` is an
        -- IndexError when the line is just the LF.
        let c1 : Conn := { c with reader := some { r with buffer := rest } }
        match p.getLast? with
        | none => (.error .indexErr, c1)
        | some last =>
          if last ≠ 13 then (.error .parsing, c1)
          else
            match p.dropLast with
            | [] => (.ok none, c1)
            | t :: payload =>
              if t = 43 then
                -- SimpleString(line[1:]): ascii decode
                if payload.all (fun c => c < 128) then
                  (.ok (some (.simpleString payload)), c1)
                else (.error .parsing, c1)
              else if t = 45 then
                -- Error(line[1:]): ascii decode
                if payload.all (fun c => c < 128) then
                  (.ok (some (.error payload)), c1)
                else (.error .parsing, c1)
              else if t = 58 then
                -- Integer(line[1:])
                match pyIntParse payload with
                | some n => (.ok (some (.integer n)), c1)
                | none => (.error .parsing, c1)
              else if t = 36 then
                -- BulkString: parse the length, then readexactly(length + 2)
                match pyIntParse payload with
                | none => (.error .parsing, c1)
                | some n =>
                  if n = -1 then (.ok (some .null), c1)
                  else if n < -1 then (.error .parsing, c1)
                  else
                    if n.toNat + 2 ≤ rest.length then
                      let bulk := rest.take (n.toNat + 2)
                      let c2 : Conn :=
                        { c with reader := some { r with buffer := rest.drop (n.toNat + 2) } }
                      if bulk.dropLast.getLast? = some 13 ∧ bulk.getLast? = some 10 then
                        (.ok (some (.bulkString bulk.dropLast.dropLast)), c2)
                      else (.error .parsing, c2)
                    else if r.eof then (.error .connClosed, c1.disconnect)
                    else if timeout then (.error .timeout, c1)
                    else (.error .blocked, c1)
              else if t = 42 then
                -- Array: parse the size, then receive that many elements recursively
                match pyIntParse payload with
                | none => (.error .parsing, c1)
                | some n =>
                  if n = -1 then (.ok (some .null), c1)
                  else if n < -1 then (.error .parsing, c1)
                  else
                    match receiveMany (receiveF timeout fuel) n.toNat c1 with
                    | (.error e, c2) => (.error e, c2)
                    | (.ok vs, c2) => (.ok (some (.array vs)), c2)
              else (.ok none, c1)

/-! ## Subscriber model (`PubSub.py`)

Channel names are Python strings restricted by the code to ASCII, modelled as their
lists of ASCII codes; consumer queues are opaque handles modelled as natural numbers.
The `pending` and `subscribed` dictionaries are insertion-ordered association lists,
as Python dicts are.  `q.put(event)` is modelled by emitting `(queue, event)` pairs in
order. -/

/-- A `dict[str, list[asyncio.Queue]]` of `PubSub.py`. -/
abbrev ChMap := List (Bytes × List Nat)

/-- Dictionary membership test / item access: the value stored under a key. -/
def lookupA (k : Bytes) : ChMap → Option (List Nat)
  | [] => none
  | (k', v) :: rest => if k' = k then some v else lookupA k rest

/-- Dictionary item assignment `d[k] = v`: replace in place if present, else append. -/
def setA (k : Bytes) (v : List Nat) : ChMap → ChMap
  | [] => [(k, v)]
  | (k', v') :: rest => if k' = k then (k, v) :: rest else (k', v') :: setA k v rest

/-- Dictionary `d.pop(k)`: drop the entry stored under `k`. -/
def popA (k : Bytes) : ChMap → ChMap
  | [] => []
  | (k', v') :: rest => if k' = k then rest else (k', v') :: popA k rest

/-- State of a `Subscriber`: the `_pending` and `_subscribed` maps and the
`_conn` connection. -/
structure SubState where
  pending : ChMap
  subscribed : ChMap
  conn : Conn
deriving DecidableEq, Repr

/-- The events a `Subscriber` pushes into consumer queues: `QSubscribed`, `QMessage`
and `QUnsubscribed`. -/
inductive Event where
  | qSubscribed (ch : Bytes)
  | qMessage (ch : Bytes) (data : Bytes)
  | qUnsubscribed (ch : Bytes)
deriving DecidableEq, Repr

/-- ASCII bytes of "SUBSCRIBE". -/
def subscribeWord : Bytes := [83, 85, 66, 83, 67, 82, 73, 66, 69]

/-- ASCII bytes of "UNSUBSCRIBE". -/
def unsubscribeWord : Bytes := [85, 78, 83, 85, 66, 83, 67, 82, 73, 66, 69]

/-- ASCII bytes of the push kind b"subscribe". -/
def subscribeLit : Bytes := [115, 117, 98, 115, 99, 114, 105, 98, 101]

/-- ASCII bytes of the push kind b"message". -/
def messageLit : Bytes := [109, 101, 115, 115, 97, 103, 101]

/-- ASCII bytes of the push kind b"unsubscribe". -/
def unsubscribeLit : Bytes := [117, 110, 115, 117, 98, 115, 99, 114, 105, 98, 101]

/-- The two-element command array `[BulkString(word), BulkString(channel)]` sent by
`subscribe` and `unsubscribe`. -/
def cmdArr (word ch : Bytes) : Value :=
  .array (.cons (.bulkString word) (.cons (.bulkString ch) .nil))

namespace Subscriber

/-- `Subscriber.subscribe(channel, q)`: append to the pending list if the channel is
pending; append to the subscribed list and deliver `QSubscribed` immediately if it is
subscribed; otherwise send SUBSCRIBE and create the pending entry with `q` as sole
member.  (The `async with self._lock` serializing writes is not modelled; one call
runs atomically here.) -/
def subscribe (ch : Bytes) (q : Nat) (st : SubState) :
    Except PyErr Unit × SubState × List (Nat × Event) :=
  match lookupA ch st.pending with
  | some l => (.ok (), { st with pending := setA ch (l ++ [q]) st.pending }, [])
  | none =>
    match lookupA ch st.subscribed with
    | some l =>
      (.ok (), { st with subscribed := setA ch (l ++ [q]) st.subscribed },
        [(q, .qSubscribed ch)])
    | none =>
      match Conn.sendVal (cmdArr subscribeWord ch) st.conn with
      | (.error _, c1) => (.error .connClosed, { st with conn := c1.disconnect }, [])
      | (.ok _, c1) =>
        (.ok (), { st with conn := c1, pending := setA ch [q] st.pending }, [])

/-- `Subscriber.unsubscribe(channel, q)`: no-op when the channel is not subscribed or
`q` is not bound to it; when other consumers remain, remove `q` and deliver
`QUnsubscribed` to it; when `q` is the last consumer, send UNSUBSCRIBE and keep the
entry.  On a closed connection the `except` handler evaluates `self.conn`, an
attribute that does not exist (the field is `self._conn`), so the built-in
`AttributeError` escapes instead of `ConnectionClosedError`; `Connection.send` has
already disconnected the connection at that point. -/
def unsubscribe (ch : Bytes) (q : Nat) (st : SubState) :
    Except PyErr Unit × SubState × List (Nat × Event) :=
  match lookupA ch st.subscribed with
  | none => (.ok (), st, [])
  | some l =>
    if q ∈ l then
      if 1 < l.length then
        (.ok (), { st with subscribed := setA ch (l.erase q) st.subscribed },
          [(q, .qUnsubscribed ch)])
      else
        match Conn.sendVal (cmdArr unsubscribeWord ch) st.conn with
        | (.error _, c1) => (.error .attrErr, { st with conn := c1 }, [])
        | (.ok _, c1) => (.ok (), { st with conn := c1 }, [])
    else (.ok (), st, [])

/-- The result of an erroneous dispatch: disconnect the connection, raise
`UnexpectedResponseError`, deliver nothing. -/
def dispatchErr (st : SubState) : Except PyErr Unit × SubState × List (Nat × Event) :=
  (.error .unexpectedResponse, { st with conn := st.conn.disconnect }, [])

/-- One dispatch iteration of `Subscriber.run_forever` on the value returned by
`self._conn.receive()` (`none` models a Python `None` return): validate the
three-element array shape, the push kind, the field types and the ASCII channel name,
then update the maps and fan events out to the channel's consumers in order. -/
def dispatch (ret : Option Value) (st : SubState) :
    Except PyErr Unit × SubState × List (Nat × Event) :=
  match ret with
  | some (.array (.cons e0 (.cons e1 (.cons e2 .nil)))) =>
    match e0 with
    | .bulkString kind =>
      if kind = subscribeLit then
        match e1, e2 with
        | .bulkString chb, .integer _ =>
          if chb.all (fun c => c < 128) then
            match lookupA chb st.pending with
            | some chq =>
              (.ok (),
                { st with
                  pending := popA chb st.pending,
                  subscribed := setA chb chq st.subscribed },
                chq.map (fun q => (q, Event.qSubscribed chb)))
            | none => dispatchErr st
          else dispatchErr st
        | _, _ => dispatchErr st
      else if kind = messageLit then
        match e1, e2 with
        | .bulkString chb, .bulkString data =>
          if chb.all (fun c => c < 128) then
            match lookupA chb st.subscribed with
            | some chq =>
              (.ok (), st, chq.map (fun q => (q, Event.qMessage chb data)))
            | none => dispatchErr st
          else dispatchErr st
        | _, _ => dispatchErr st
      else if kind = unsubscribeLit then
        match e1, e2 with
        | .bulkString chb, .integer _ =>
          if chb.all (fun c => c < 128) then
            match lookupA chb st.subscribed with
            | some chq =>
              (.ok (), { st with subscribed := popA chb st.subscribed },
                chq.map (fun q => (q, Event.qUnsubscribed chb)))
            | none => dispatchErr st
          else dispatchErr st
        | _, _ => dispatchErr st
      else dispatchErr st
    | _ => dispatchErr st
  | _ => dispatchErr st

end Subscriber

/-! ## The invariant of claim C5 -/

/-- A dictionary has no duplicate keys (automatic for a Python dict). -/
def KeysNodup (m : ChMap) : Prop := (m.map Prod.fst).Nodup

/-- No channel of the first map is a key of the second map. -/
def DisjMaps (p s : ChMap) : Prop := ∀ e ∈ p, lookupA e.1 s = none

/-- Every consumer list of the map is duplicate-free. -/
def ListsNodup (m : ChMap) : Prop := ∀ e ∈ m, e.2.Nodup

/-- The claimed `Subscriber` state invariant: each map has unique keys, no channel is
in both maps, and a queue occurs at most once in any channel's list. -/
def ChInv (st : SubState) : Prop :=
  KeysNodup st.pending ∧ KeysNodup st.subscribed ∧
    DisjMaps st.pending st.subscribed ∧
    ListsNodup st.pending ∧ ListsNodup st.subscribed

/-- The invariant is decidable, so concrete states can be checked by evaluation. -/
instance instDecChInv (st : SubState) : Decidable (ChInv st) := by
  unfold ChInv KeysNodup DisjMaps ListsNodup
  infer_instance

/-- The key-level half of the invariant alone: unique keys in each map and no channel
present in both. -/
def ChKeyInv (st : SubState) : Prop :=
  KeysNodup st.pending ∧ KeysNodup st.subscribed ∧ DisjMaps st.pending st.subscribed

/-- The key-level invariant is decidable as well. -/
instance instDecChKeyInv (st : SubState) : Decidable (ChKeyInv st) := by
  unfold ChKeyInv KeysNodup DisjMaps
  infer_instance

/-! ## Lemmas about the decimal rendering and Python `int()` -/

theorem natToDigitsGo_eq (fuel : Nat) :
    ∀ n acc, n ≤ fuel →
      natToDigitsGo fuel n acc = ((Nat.digits 10 n).reverse.map (fun d => d + 48)) ++ acc := by
  induction fuel with
  | zero =>
    intro n acc h
    have hn : n = 0 := by omega
    subst hn
    simp [natToDigitsGo]
  | succ fuel ih =>
    intro n acc h
    rw [natToDigitsGo]
    by_cases hn : n = 0
    · subst hn; simp
    · have hdiv : n / 10 < n := Nat.div_lt_self (Nat.pos_of_ne_zero hn) (by norm_num)
      rw [if_neg hn, ih (n / 10) _ (by omega)]
      rw [Nat.digits_def' (by norm_num : (1 : Nat) < 10) (Nat.pos_of_ne_zero hn)]
      simp

theorem natToDigits_eq (n : Nat) :
    natToDigits n =
      if n = 0 then [48] else (Nat.digits 10 n).reverse.map (fun d => d + 48) := by
  unfold natToDigits
  by_cases h : n = 0
  · simp [h]
  · simp [h, natToDigitsGo_eq n n [] le_rfl]

theorem natToDigits_mem {n c : Nat} (hc : c ∈ natToDigits n) : 48 ≤ c ∧ c ≤ 57 := by
  rw [natToDigits_eq] at hc
  split at hc
  · simp at hc; omega
  · simp only [List.mem_map, List.mem_reverse] at hc
    obtain ⟨d, hd, rfl⟩ := hc
    have := Nat.digits_lt_base (by norm_num) hd
    omega

theorem natToDigits_ne_nil (n : Nat) : natToDigits n ≠ [] := by
  rw [natToDigits_eq]
  split
  · simp
  · simp [Nat.digits_ne_nil_iff_ne_zero, *]

theorem parseDigitsAux_eq (l : Bytes) :
    ∀ a, (∀ c ∈ l, 48 ≤ c ∧ c ≤ 57) →
      parseDigitsAux l a = some (l.foldl (fun x c => 10 * x + (c - 48)) a) := by
  induction l with
  | nil => intro a _; simp [parseDigitsAux]
  | cons c rest ih =>
    intro a h
    have hc := h c (by simp)
    rw [parseDigitsAux, if_pos hc, ih _ (fun x hx => h x (by simp [hx]))]
    simp

theorem foldr_ofDigits (ds : List Nat) (a : Nat) :
    ds.foldr (fun d x => 10 * x + d) a = Nat.ofDigits 10 ds + a * 10 ^ ds.length := by
  induction ds with
  | nil => simp [Nat.ofDigits_nil]
  | cons d t ih =>
    simp only [List.foldr_cons, ih, Nat.ofDigits_cons, List.length_cons, pow_succ]
    ring

theorem foldl_natToDigits (n : Nat) :
    (natToDigits n).foldl (fun x c => 10 * x + (c - 48)) 0 = n := by
  rw [natToDigits_eq]
  by_cases h : n = 0
  · simp [h]
  · rw [if_neg h, List.foldl_map, List.foldl_reverse]
    simp only [Nat.add_sub_cancel]
    rw [foldr_ofDigits]
    simp [Nat.ofDigits_digits]

theorem parseDigits_natToDigits (n : Nat) : parseDigits (natToDigits n) = some n := by
  obtain ⟨c, rest, hcr⟩ := List.exists_cons_of_ne_nil (natToDigits_ne_nil n)
  rw [hcr, parseDigits, ← hcr, parseDigitsAux_eq _ _ (fun x hx => natToDigits_mem hx),
    foldl_natToDigits]

theorem dropWhile_eq_self_of (p : Nat → Bool) (l : Bytes) (h : ∀ c ∈ l, p c = false) :
    l.dropWhile p = l := by
  cases l with
  | nil => rfl
  | cons c rest => rw [List.dropWhile_cons, h c (by simp)]; simp

theorem stripWS_eq_self (l : Bytes) (h : ∀ c ∈ l, isPySpace c = false) : stripWS l = l := by
  unfold stripWS
  rw [dropWhile_eq_self_of _ _ h,
    dropWhile_eq_self_of _ _ (fun c hc => h c (by simpa using hc)), List.reverse_reverse]

theorem natToDigits_not_space {n c : Nat} (hc : c ∈ natToDigits n) : isPySpace c = false := by
  have := natToDigits_mem hc
  simp only [isPySpace, Bool.or_eq_false_iff, decide_eq_false_iff_not]
  omega

theorem pyIntParse_natToDigits (n : Nat) : pyIntParse (natToDigits n) = some (n : Int) := by
  obtain ⟨c, rest, hcr⟩ := List.exists_cons_of_ne_nil (natToDigits_ne_nil n)
  have hstrip : stripWS (natToDigits n) = c :: rest := by
    rw [stripWS_eq_self _ (fun x hx => natToDigits_not_space hx)]
    exact hcr
  have hc := natToDigits_mem (hcr ▸ List.mem_cons_self c rest)
  rw [pyIntParse, hstrip]
  simp only [pyIntParseCore]
  rw [if_neg (by omega : ¬c = 43), if_neg (by omega : ¬c = 45), ← hcr,
    parseDigits_natToDigits]
  rfl

theorem pyIntParse_intEncode (n : Int) : pyIntParse (intEncode n) = some n := by
  unfold intEncode
  by_cases h : n < 0
  · rw [if_pos h]
    have hstrip : stripWS (45 :: natToDigits (-n).toNat) = 45 :: natToDigits (-n).toNat := by
      refine stripWS_eq_self _ ?_
      intro c hc
      rcases List.mem_cons.mp hc with rfl | hc
      · rfl
      · exact natToDigits_not_space hc
    rw [pyIntParse, hstrip]
    simp only [pyIntParseCore]
    rw [if_neg (by norm_num : ¬(45 : Nat) = 43), if_pos trivial, parseDigits_natToDigits]
    simp only [Option.map_some', Option.some.injEq]
    omega
  · rw [if_neg h, pyIntParse_natToDigits]
    congr 1
    omega

/-! ## Lemmas about the line reader -/

theorem splitAtLF_append (p q : Bytes) (h : ∀ c ∈ p, c ≠ 10) :
    splitAtLF (p ++ 10 :: q) = some (p, q) := by
  induction p with
  | nil => simp [splitAtLF]
  | cons c rest ih =>
    have hc : c ≠ 10 := h c (by simp)
    simp only [List.cons_append, splitAtLF, if_neg hc, List.append_eq]
    rw [ih (fun x hx => h x (List.mem_cons_of_mem c hx))]
    rfl

theorem natToDigits_ne_lf {n c : Nat} (hc : c ∈ natToDigits n) : c ≠ 10 := by
  have := natToDigits_mem hc
  omega

theorem intEncode_ne_lf {n : Int} {c : Nat} (hc : c ∈ intEncode n) : c ≠ 10 := by
  unfold intEncode at hc
  split at hc
  · rcases List.mem_cons.mp hc with rfl | hc
    · omega
    · exact natToDigits_ne_lf hc
  · exact natToDigits_ne_lf hc

theorem frames_pos (v : Value) : 1 ≤ frames v := by
  cases v <;> simp [frames]

/-! ## The round-trip theorem: `receive` decodes what `serialize` produced -/

mutual

theorem receiveF_serialize (v : Value) : ∀ (timeout : Bool) (fuel : Nat) (rest : Bytes)
    (eof : Bool) (w : Option WriterState), wf v = true → frames v ≤ fuel →
    receiveF timeout fuel ⟨some ⟨serialize v ++ rest, eof⟩, w⟩ =
      (.ok (some v), ⟨some ⟨rest, eof⟩, w⟩) := by
  intro timeout fuel rest eof w hwf hfuel
  obtain ⟨f, rfl⟩ : ∃ f, fuel = f + 1 := by
    have := frames_pos v
    cases fuel with
    | zero => omega
    | succ f => exact ⟨f, rfl⟩
  cases v with
  | simpleString s =>
    have hchar : ∀ c ∈ s, c < 128 ∧ c ≠ 13 ∧ c ≠ 10 := by
      intro c hc
      have := (List.all_eq_true.mp hwf) c hc
      simp only [Bool.and_eq_true, decide_eq_true_eq, bne_iff_ne, ne_eq,
        decide_eq_true_eq] at this
      omega
    have hsplit : splitAtLF (43 :: (s ++ 13 :: 10 :: rest)) =
        some (43 :: (s ++ [13]), rest) := by
      have hshape : (43 : Nat) :: (s ++ 13 :: 10 :: rest) =
          (43 :: (s ++ [13])) ++ 10 :: rest := by simp
      rw [hshape]
      refine splitAtLF_append _ _ ?_
      intro c hc
      rcases List.mem_cons.mp hc with rfl | hc
      · omega
      · rcases List.mem_append.mp hc with hc | hc
        · exact (hchar c hc).2.2
        · simp at hc; omega
    have hlast : (43 :: (s ++ [13])).getLast? = some 13 := List.getLast?_concat (43 :: s)
    have hdrop : (43 :: (s ++ [13])).dropLast = 43 :: s := @List.dropLast_concat Nat (43 :: s) 13
    have hascii : s.all (fun c => decide (c < 128)) = true :=
      List.all_eq_true.mpr (fun c hc => decide_eq_true (hchar c hc).1)
    simp [receiveF, serialize, hsplit, hlast, hdrop, hascii]
  | error s =>
    have hchar : ∀ c ∈ s, c < 128 ∧ c ≠ 13 ∧ c ≠ 10 := by
      intro c hc
      have := (List.all_eq_true.mp hwf) c hc
      simp only [Bool.and_eq_true, decide_eq_true_eq, bne_iff_ne, ne_eq,
        decide_eq_true_eq] at this
      omega
    have hsplit : splitAtLF (45 :: (s ++ 13 :: 10 :: rest)) =
        some (45 :: (s ++ [13]), rest) := by
      have hshape : (45 : Nat) :: (s ++ 13 :: 10 :: rest) =
          (45 :: (s ++ [13])) ++ 10 :: rest := by simp
      rw [hshape]
      refine splitAtLF_append _ _ ?_
      intro c hc
      rcases List.mem_cons.mp hc with rfl | hc
      · omega
      · rcases List.mem_append.mp hc with hc | hc
        · exact (hchar c hc).2.2
        · simp at hc; omega
    have hlast : (45 :: (s ++ [13])).getLast? = some 13 := List.getLast?_concat (45 :: s)
    have hdrop : (45 :: (s ++ [13])).dropLast = 45 :: s := @List.dropLast_concat Nat (45 :: s) 13
    have hascii : s.all (fun c => decide (c < 128)) = true :=
      List.all_eq_true.mpr (fun c hc => decide_eq_true (hchar c hc).1)
    simp [receiveF, serialize, hsplit, hlast, hdrop, hascii]
  | integer n =>
    have hsplit : splitAtLF (58 :: (intEncode n ++ 13 :: 10 :: rest)) =
        some (58 :: (intEncode n ++ [13]), rest) := by
      have hshape : (58 : Nat) :: (intEncode n ++ 13 :: 10 :: rest) =
          (58 :: (intEncode n ++ [13])) ++ 10 :: rest := by simp
      rw [hshape]
      refine splitAtLF_append _ _ ?_
      intro c hc
      rcases List.mem_cons.mp hc with rfl | hc
      · omega
      · rcases List.mem_append.mp hc with hc | hc
        · exact intEncode_ne_lf hc
        · simp at hc; omega
    have hlast : (58 :: (intEncode n ++ [13])).getLast? = some 13 :=
      List.getLast?_concat (58 :: intEncode n)
    have hdrop : (58 :: (intEncode n ++ [13])).dropLast = 58 :: intEncode n :=
      @List.dropLast_concat Nat (58 :: intEncode n) 13
    simp [receiveF, serialize, hsplit, hlast, hdrop, pyIntParse_intEncode]
  | bulkString b =>
    have hsplit : splitAtLF (36 :: (natToDigits b.length ++ 13 :: 10 :: (b ++ 13 :: 10 :: rest))) =
        some (36 :: (natToDigits b.length ++ [13]), b ++ 13 :: 10 :: rest) := by
      have hshape : (36 : Nat) :: (natToDigits b.length ++ 13 :: 10 :: (b ++ 13 :: 10 :: rest)) =
          (36 :: (natToDigits b.length ++ [13])) ++ 10 :: (b ++ 13 :: 10 :: rest) := by simp
      rw [hshape]
      refine splitAtLF_append _ _ ?_
      intro c hc
      rcases List.mem_cons.mp hc with rfl | hc
      · omega
      · rcases List.mem_append.mp hc with hc | hc
        · exact natToDigits_ne_lf hc
        · simp at hc; omega
    have hlast : (36 :: (natToDigits b.length ++ [13])).getLast? = some 13 :=
      List.getLast?_concat (36 :: natToDigits b.length)
    have hdrop : (36 :: (natToDigits b.length ++ [13])).dropLast =
        36 :: natToDigits b.length :=
      @List.dropLast_concat Nat (36 :: natToDigits b.length) 13
    have hne1 : ¬((b.length : Int) = -1) := by omega
    have hne2 : ¬((b.length : Int) < -1) := by omega
    have htn : ((b.length : Int)).toNat = b.length := by omega
    have hlen : b.length + 2 ≤ (b ++ 13 :: 10 :: rest).length := by
      simp
    have htake : (b ++ 13 :: 10 :: rest).take (b.length + 2) = b ++ [13, 10] := by
      rw [show b ++ 13 :: 10 :: rest = (b ++ [13, 10]) ++ rest by simp,
        show b.length + 2 = (b ++ [13, 10]).length + 0 by simp, List.take_append]
      simp
    have hdrop2 : (b ++ 13 :: 10 :: rest).drop (b.length + 2) = rest := by
      rw [show b ++ 13 :: 10 :: rest = (b ++ [13, 10]) ++ rest by simp,
        show b.length + 2 = (b ++ [13, 10]).length + 0 by simp, List.drop_append]
      simp
    have hckl : (b ++ [13, 10]).dropLast.getLast? = some 13 := by
      rw [show b ++ [13, 10] = (b ++ [13]) ++ [10] by simp, List.dropLast_concat]
      exact List.getLast?_concat b
    have hckr : (b ++ [13, 10]).getLast? = some 10 := by
      rw [show b ++ [13, 10] = (b ++ [13]) ++ [10] by simp]
      exact List.getLast?_concat (b ++ [13])
    have hbody : (b ++ [13, 10]).dropLast.dropLast = b := by
      rw [show b ++ [13, 10] = (b ++ [13]) ++ [10] by simp, List.dropLast_concat,
        List.dropLast_concat]
    simp [receiveF, serialize, hsplit, hlast, hdrop, pyIntParse_natToDigits, hne1, hne2,
      htn, hlen, htake, hdrop2, hckl, hckr, hbody]
  | null =>
    have hsplit : splitAtLF ((36 : Nat) :: 45 :: 49 :: 13 :: 10 :: rest) =
        some ([36, 45, 49, 13], rest) := by
      have hshape : (36 : Nat) :: 45 :: 49 :: 13 :: 10 :: rest =
          [36, 45, 49, 13] ++ 10 :: rest := by simp
      rw [hshape]
      refine splitAtLF_append _ _ ?_
      intro c hc
      simp at hc
      omega
    have hp : pyIntParse [45, 49] = some (-1) := by decide
    simp [receiveF, serialize, hsplit, hp]
  | array items =>
    have hsplit : splitAtLF (42 :: (natToDigits (lengthVL items) ++ 13 :: 10 ::
        (serializeList items ++ rest))) =
        some (42 :: (natToDigits (lengthVL items) ++ [13]), serializeList items ++ rest) := by
      have hshape : (42 : Nat) :: (natToDigits (lengthVL items) ++ 13 :: 10 ::
          (serializeList items ++ rest)) =
          (42 :: (natToDigits (lengthVL items) ++ [13])) ++
            10 :: (serializeList items ++ rest) := by simp
      rw [hshape]
      refine splitAtLF_append _ _ ?_
      intro c hc
      rcases List.mem_cons.mp hc with rfl | hc
      · omega
      · rcases List.mem_append.mp hc with hc | hc
        · exact natToDigits_ne_lf hc
        · simp at hc; omega
    have hlast : (42 :: (natToDigits (lengthVL items) ++ [13])).getLast? = some 13 :=
      List.getLast?_concat (42 :: natToDigits (lengthVL items))
    have hdrop : (42 :: (natToDigits (lengthVL items) ++ [13])).dropLast =
        42 :: natToDigits (lengthVL items) :=
      @List.dropLast_concat Nat (42 :: natToDigits (lengthVL items)) 13
    have hne1 : ¬((lengthVL items : Int) = -1) := by omega
    have hne2 : ¬((lengthVL items : Int) < -1) := by omega
    have htn : ((lengthVL items : Int)).toNat = lengthVL items := by omega
    have hfl : framesList items ≤ f := by
      simp only [frames] at hfuel
      omega
    have hrec := receiveMany_serializeList items timeout f rest eof w hwf hfl
    simp [receiveF, serialize, hsplit, hlast, hdrop, pyIntParse_natToDigits, hne1, hne2,
      htn, hrec]

theorem receiveMany_serializeList (vs : ValueList) : ∀ (timeout : Bool) (fuel : Nat)
    (rest : Bytes) (eof : Bool) (w : Option WriterState), wfList vs = true →
    framesList vs ≤ fuel →
    receiveMany (receiveF timeout fuel) (lengthVL vs)
      ⟨some ⟨serializeList vs ++ rest, eof⟩, w⟩ = (.ok vs, ⟨some ⟨rest, eof⟩, w⟩) := by
  intro timeout fuel rest eof w hwf hfuel
  cases vs with
  | nil => simp [receiveMany, lengthVL, serializeList]
  | cons v tail =>
    have hwv : wf v = true ∧ wfList tail = true := by
      simp only [wfList, Bool.and_eq_true] at hwf
      exact hwf
    have hfv : frames v ≤ fuel ∧ framesList tail ≤ fuel := by
      simp only [framesList] at hfuel
      have := frames_pos v
      omega
    have h1 := receiveF_serialize v timeout fuel (serializeList tail ++ rest) eof w hwv.1 hfv.1
    have h2 := receiveMany_serializeList tail timeout fuel rest eof w hwv.2 hfv.2
    simp only [lengthVL, serializeList, receiveMany, List.append_assoc] at h1 ⊢
    rw [h1]
    simp only
    rw [h2]

end

/-! ## Claim C1 -/

/-- C1: for every well-formed Value v (SimpleString or Error whose text is ASCII free
of CR/LF, any Integer, a BulkString over any byte sequence including raw CR/LF, Null,
and any Array of such values), decoding the bytes produced by serialize via
Connection.receive yields a Value equal to v and consumes exactly those bytes,
leaving the stream positioned at the next frame. -/
theorem spec_C1_roundtrip (v : Value) (timeout : Bool) (fuel : Nat) (rest : Bytes)
    (eof : Bool) (w : Option WriterState) (hwf : wf v = true) (hfuel : frames v ≤ fuel) :
    receiveF timeout fuel ⟨some ⟨serialize v ++ rest, eof⟩, w⟩ =
      (.ok (some v), ⟨some ⟨rest, eof⟩, w⟩) :=
  receiveF_serialize v timeout fuel rest eof w hwf hfuel

/-- Witness for C1 at a concrete nested array whose bulk-string element contains raw
CR and LF bytes. -/
theorem spec_C1_roundtrip_witness :
    wf (Value.array (.cons (.bulkString [13, 10, 200])
      (.cons (.integer (-5)) (.cons .null .nil)))) = true ∧
    frames (Value.array (.cons (.bulkString [13, 10, 200])
      (.cons (.integer (-5)) (.cons .null .nil)))) ≤ 5 ∧
    receiveF false 5 ⟨some ⟨serialize (Value.array (.cons (.bulkString [13, 10, 200])
      (.cons (.integer (-5)) (.cons .null .nil)))) ++ [99], true⟩, some ⟨false, []⟩⟩ =
      (.ok (some (Value.array (.cons (.bulkString [13, 10, 200])
        (.cons (.integer (-5)) (.cons .null .nil))))),
        ⟨some ⟨[99], true⟩, some ⟨false, []⟩⟩) :=
  ⟨by decide, by decide,
    spec_C1_roundtrip _ false 5 [99] true (some ⟨false, []⟩) (by decide) (by decide)⟩

/-! ## Claim C4 -/

/-- C4 (refuted by the code, which contradicts its own `-> RESPLike` annotation and
docstring): a call to receive on stream b"\r\n" (a well-terminated empty line), or on
b"?\r\n" (a well-terminated line whose tag byte is not one of the five), completes
successfully returning Python None rather than a RESP value — the fall-through
`return` at the end of `Connection.receive`. -/
theorem spec_C4_none_return :
    receiveF false 1 ⟨some ⟨[13, 10], false⟩, some ⟨false, []⟩⟩ =
      (.ok none, ⟨some ⟨[], false⟩, some ⟨false, []⟩⟩) ∧
    receiveF false 1 ⟨some ⟨[63, 13, 10], false⟩, some ⟨false, []⟩⟩ =
      (.ok none, ⟨some ⟨[], false⟩, some ⟨false, []⟩⟩) := by
  decide

/-! ## Claim C6 -/

/-- C6: a declared BulkString/Array length of exactly -1 yields Null, consuming
nothing beyond the header line, so the nil bulk string frame and the nil array frame
decode to the same Null value; a declared length below -1 raises ParsingError. -/
theorem spec_C6_nil_lengths (rest : Bytes) (eof : Bool) (w : Option WriterState)
    (f : Nat) (n : Int) :
    (receiveF false (f + 1) ⟨some ⟨[36, 45, 49, 13, 10] ++ rest, eof⟩, w⟩ =
      (.ok (some .null), ⟨some ⟨rest, eof⟩, w⟩)) ∧
    (receiveF false (f + 1) ⟨some ⟨[42, 45, 49, 13, 10] ++ rest, eof⟩, w⟩ =
      (.ok (some .null), ⟨some ⟨rest, eof⟩, w⟩)) ∧
    (n < -1 → receiveF false (f + 1)
        ⟨some ⟨(36 :: (intEncode n ++ [13, 10])) ++ rest, eof⟩, w⟩ =
      (.error .parsing, ⟨some ⟨rest, eof⟩, w⟩)) ∧
    (n < -1 → receiveF false (f + 1)
        ⟨some ⟨(42 :: (intEncode n ++ [13, 10])) ++ rest, eof⟩, w⟩ =
      (.error .parsing, ⟨some ⟨rest, eof⟩, w⟩)) := by
  have hp : pyIntParse [45, 49] = some (-1) := by decide
  refine ⟨?_, ?_, ?_, ?_⟩
  · have hsplit : splitAtLF ((36 : Nat) :: 45 :: 49 :: 13 :: 10 :: rest) =
        some ([36, 45, 49, 13], rest) := by
      have hshape : (36 : Nat) :: 45 :: 49 :: 13 :: 10 :: rest =
          [36, 45, 49, 13] ++ 10 :: rest := by simp
      rw [hshape]
      refine splitAtLF_append _ _ ?_
      intro c hc
      simp at hc
      omega
    simp [receiveF, hsplit, hp]
  · have hsplit : splitAtLF ((42 : Nat) :: 45 :: 49 :: 13 :: 10 :: rest) =
        some ([42, 45, 49, 13], rest) := by
      have hshape : (42 : Nat) :: 45 :: 49 :: 13 :: 10 :: rest =
          [42, 45, 49, 13] ++ 10 :: rest := by simp
      rw [hshape]
      refine splitAtLF_append _ _ ?_
      intro c hc
      simp at hc
      omega
    simp [receiveF, hsplit, hp]
  · intro hn
    have hsplit : splitAtLF (36 :: (intEncode n ++ 13 :: 10 :: rest)) =
        some (36 :: (intEncode n ++ [13]), rest) := by
      have hshape : (36 : Nat) :: (intEncode n ++ 13 :: 10 :: rest) =
          (36 :: (intEncode n ++ [13])) ++ 10 :: rest := by simp
      rw [hshape]
      refine splitAtLF_append _ _ ?_
      intro c hc
      rcases List.mem_cons.mp hc with rfl | hc
      · omega
      · rcases List.mem_append.mp hc with hc | hc
        · exact intEncode_ne_lf hc
        · simp at hc; omega
    have hlast : (36 :: (intEncode n ++ [13])).getLast? = some 13 :=
      List.getLast?_concat (36 :: intEncode n)
    have hdrop : (36 :: (intEncode n ++ [13])).dropLast = 36 :: intEncode n :=
      @List.dropLast_concat Nat (36 :: intEncode n) 13
    have hne1 : ¬(n = -1) := by omega
    simp [receiveF, hsplit, hlast, hdrop, pyIntParse_intEncode, hne1, hn]
  · intro hn
    have hsplit : splitAtLF (42 :: (intEncode n ++ 13 :: 10 :: rest)) =
        some (42 :: (intEncode n ++ [13]), rest) := by
      have hshape : (42 : Nat) :: (intEncode n ++ 13 :: 10 :: rest) =
          (42 :: (intEncode n ++ [13])) ++ 10 :: rest := by simp
      rw [hshape]
      refine splitAtLF_append _ _ ?_
      intro c hc
      rcases List.mem_cons.mp hc with rfl | hc
      · omega
      · rcases List.mem_append.mp hc with hc | hc
        · exact intEncode_ne_lf hc
        · simp at hc; omega
    have hlast : (42 :: (intEncode n ++ [13])).getLast? = some 13 :=
      List.getLast?_concat (42 :: intEncode n)
    have hdrop : (42 :: (intEncode n ++ [13])).dropLast = 42 :: intEncode n :=
      @List.dropLast_concat Nat (42 :: intEncode n) 13
    have hne1 : ¬(n = -1) := by omega
    simp [receiveF, hsplit, hlast, hdrop, pyIntParse_intEncode, hne1, hn]

/-- Witness for C6 at concrete length -2 and stream remainder [65]. -/
theorem spec_C6_nil_lengths_witness :
    receiveF false 1 ⟨some ⟨(36 :: (intEncode (-2) ++ [13, 10])) ++ [65], true⟩,
      some ⟨false, []⟩⟩ =
      (.error .parsing, ⟨some ⟨[65], true⟩, some ⟨false, []⟩⟩) :=
  (spec_C6_nil_lengths [65] true (some ⟨false, []⟩) 0 (-2)).2.2.1 (by decide)

/-! ## Claim C7 -/

/-- C7 (refuted by the code for the lone-LF line): on the stream b"\n" the check
`line[-2] != ord("\r")` indexes a one-byte line and raises the uncaught built-in
IndexError instead of ParsingError. -/
theorem spec_C7_lf_alone :
    receiveF false 1 ⟨some ⟨[10], false⟩, some ⟨false, []⟩⟩ =
      (.error .indexErr, ⟨some ⟨[], false⟩, some ⟨false, []⟩⟩) := by
  decide

/-! ## Claim C8 -/

/-- C8: a receive(timeout=T) call that times out while waiting for the header line or
for a bulk string's body raises TimeoutError without disconnecting: the stream
handles survive, connected() is still true and a subsequent receive is possible.  In
the header case the connection state is exactly unchanged; in the body case only the
header line (consumed before the timing-out read began) is gone. -/
theorem spec_C8_timeout_isolation (buf body : Bytes) (w : WriterState) (k f : Nat)
    (hcl : w.closing = false) :
    (splitAtLF buf = none →
      receiveF true (f + 1) ⟨some ⟨buf, false⟩, some w⟩ =
        (.error .timeout, ⟨some ⟨buf, false⟩, some w⟩) ∧
      Conn.connected ⟨some ⟨buf, false⟩, some w⟩ = true) ∧
    (body.length < k + 2 →
      receiveF true (f + 1)
          ⟨some ⟨(36 :: (natToDigits k ++ [13, 10])) ++ body, false⟩, some w⟩ =
        (.error .timeout, ⟨some ⟨body, false⟩, some w⟩) ∧
      Conn.connected ⟨some ⟨body, false⟩, some w⟩ = true) := by
  constructor
  · intro hnolf
    constructor
    · simp [receiveF, hnolf]
    · simp [Conn.connected, hcl]
  · intro hshort
    constructor
    · have hsplit : splitAtLF (36 :: (natToDigits k ++ 13 :: 10 :: body)) =
          some (36 :: (natToDigits k ++ [13]), body) := by
        have hshape : (36 : Nat) :: (natToDigits k ++ 13 :: 10 :: body) =
            (36 :: (natToDigits k ++ [13])) ++ 10 :: body := by simp
        rw [hshape]
        refine splitAtLF_append _ _ ?_
        intro c hc
        rcases List.mem_cons.mp hc with rfl | hc
        · omega
        · rcases List.mem_append.mp hc with hc | hc
          · exact natToDigits_ne_lf hc
          · simp at hc; omega
      have hlast : (36 :: (natToDigits k ++ [13])).getLast? = some 13 :=
        List.getLast?_concat (36 :: natToDigits k)
      have hdrop : (36 :: (natToDigits k ++ [13])).dropLast = 36 :: natToDigits k :=
        @List.dropLast_concat Nat (36 :: natToDigits k) 13
      have hne1 : ¬((k : Int) = -1) := by omega
      have hne2 : ¬((k : Int) < -1) := by omega
      have htn : ((k : Int)).toNat = k := by omega
      have hlen : ¬(k + 2 ≤ body.length) := by omega
      simp [receiveF, hsplit, hlast, hdrop, pyIntParse_natToDigits, hne1, hne2, htn, hlen]
    · simp [Conn.connected, hcl]

/-- Witness for C8: a timeout waiting for the header on buffered b"$" (no LF yet), on
a live connection. -/
theorem spec_C8_timeout_isolation_witness :
    receiveF true 1 ⟨some ⟨[36], false⟩, some ⟨false, []⟩⟩ =
      (.error .timeout, ⟨some ⟨[36], false⟩, some ⟨false, []⟩⟩) ∧
    Conn.connected ⟨some ⟨[36], false⟩, some ⟨false, []⟩⟩ = true :=
  (spec_C8_timeout_isolation [36] [] ⟨false, []⟩ 0 0 rfl).1 (by decide)

/-! ## Claim C2 -/

/-- C2: Subscriber.subscribe(channel, q) appends q to the pending list with no wire
traffic when the channel is pending; appends q to the subscribed list and delivers a
QSubscribed event to q only when the channel is subscribed; and otherwise sends a
SUBSCRIBE command for the channel and creates a pending entry with q as its sole
member. -/
theorem spec_C2_subscribe_cases (ch : Bytes) (q : Nat) (st : SubState) :
    (∀ l, lookupA ch st.pending = some l →
      Subscriber.subscribe ch q st =
        (.ok (), { st with pending := setA ch (l ++ [q]) st.pending }, [])) ∧
    (∀ l, lookupA ch st.pending = none → lookupA ch st.subscribed = some l →
      Subscriber.subscribe ch q st =
        (.ok (), { st with subscribed := setA ch (l ++ [q]) st.subscribed },
          [(q, .qSubscribed ch)])) ∧
    (∀ w, lookupA ch st.pending = none → lookupA ch st.subscribed = none →
      st.conn.writer = some w → st.conn.connected = true →
      Subscriber.subscribe ch q st =
        (.ok (),
          { st with
            conn := { st.conn with writer := some { w with
              sent := w.sent ++ serialize (cmdArr subscribeWord ch) } },
            pending := setA ch [q] st.pending }, [])) := by
  refine ⟨?_, ?_, ?_⟩
  · intro l hp
    simp [Subscriber.subscribe, hp]
  · intro l hp hs
    simp [Subscriber.subscribe, hp, hs]
  · intro w hp hs hw hconn
    simp [Subscriber.subscribe, hp, hs, Conn.sendVal, hconn, hw]

/-- Witness for C2: all three cases at concrete states (a pending channel "a", a
subscribed channel "a", and a fresh channel "a" over a live connection). -/
theorem spec_C2_subscribe_cases_witness :
    (Subscriber.subscribe [97] 7 ⟨[([97], [5])], [], ⟨some ⟨[], false⟩, some ⟨false, []⟩⟩⟩ =
      (.ok (), ⟨[([97], [5, 7])], [], ⟨some ⟨[], false⟩, some ⟨false, []⟩⟩⟩, [])) ∧
    (Subscriber.subscribe [97] 7 ⟨[], [([97], [5])], ⟨some ⟨[], false⟩, some ⟨false, []⟩⟩⟩ =
      (.ok (), ⟨[], [([97], [5, 7])], ⟨some ⟨[], false⟩, some ⟨false, []⟩⟩⟩,
        [(7, .qSubscribed [97])])) ∧
    (Subscriber.subscribe [97] 7 ⟨[], [], ⟨some ⟨[], false⟩, some ⟨false, []⟩⟩⟩ =
      (.ok (), ⟨[([97], [7])], [],
        ⟨some ⟨[], false⟩, some ⟨false, serialize (cmdArr subscribeWord [97])⟩⟩⟩, [])) := by
  refine ⟨?_, ?_, ?_⟩
  · exact (spec_C2_subscribe_cases [97] 7
      ⟨[([97], [5])], [], ⟨some ⟨[], false⟩, some ⟨false, []⟩⟩⟩).1 [5] (by decide)
  · exact (spec_C2_subscribe_cases [97] 7
      ⟨[], [([97], [5])], ⟨some ⟨[], false⟩, some ⟨false, []⟩⟩⟩).2.1 [5]
        (by decide) (by decide)
  · exact (spec_C2_subscribe_cases [97] 7
      ⟨[], [], ⟨some ⟨[], false⟩, some ⟨false, []⟩⟩⟩).2.2 ⟨false, []⟩
        (by decide) (by decide) (by decide) (by decide)

/-! ## Claim C3 -/

/-- C3: Subscriber.unsubscribe(channel, q) is a no-op when the channel is not
subscribed or q is not bound to it; removes q immediately, delivering QUnsubscribed
to q only with no wire traffic, when other consumers remain; and when q is the last
consumer it sends UNSUBSCRIBE, leaves the channel subscribed with q still bound, and
q's QUnsubscribed arrives only when the receive loop processes the server's
unsubscribe push, which removes the entry. -/
theorem spec_C3_unsubscribe_cases (ch : Bytes) (q : Nat) (st : SubState) :
    (lookupA ch st.subscribed = none →
      Subscriber.unsubscribe ch q st = (.ok (), st, [])) ∧
    (∀ l, lookupA ch st.subscribed = some l → q ∉ l →
      Subscriber.unsubscribe ch q st = (.ok (), st, [])) ∧
    (∀ l, lookupA ch st.subscribed = some l → q ∈ l → 1 < l.length →
      Subscriber.unsubscribe ch q st =
        (.ok (), { st with subscribed := setA ch (l.erase q) st.subscribed },
          [(q, .qUnsubscribed ch)])) ∧
    (∀ w, lookupA ch st.subscribed = some [q] → st.conn.writer = some w →
      st.conn.connected = true →
      Subscriber.unsubscribe ch q st =
        (.ok (), { st with conn := { st.conn with writer := some { w with
          sent := w.sent ++ serialize (cmdArr unsubscribeWord ch) } } }, [])) ∧
    (∀ l (k : Int), lookupA ch st.subscribed = some l →
      ch.all (fun c => c < 128) = true →
      Subscriber.dispatch (some (.array (.cons (.bulkString unsubscribeLit)
          (.cons (.bulkString ch) (.cons (.integer k) .nil))))) st =
        (.ok (), { st with subscribed := popA ch st.subscribed },
          l.map (fun x => (x, Event.qUnsubscribed ch)))) := by
  refine ⟨?_, ?_, ?_, ?_, ?_⟩
  · intro hs
    simp [Subscriber.unsubscribe, hs]
  · intro l hs hq
    simp [Subscriber.unsubscribe, hs, hq]
  · intro l hs hq hlen
    simp [Subscriber.unsubscribe, hs, hq, hlen]
  · intro w hs hw hconn
    have hlen : ¬(1 < ([q] : List Nat).length) := by simp
    simp [Subscriber.unsubscribe, hs, hlen, Conn.sendVal, hconn, hw]
  · intro l k hs hascii
    simp [Subscriber.dispatch, subscribeLit, messageLit, unsubscribeLit, hascii, hs]

/-- Witness for C3: all five cases at concrete states over channel "a". -/
theorem spec_C3_unsubscribe_cases_witness :
    (Subscriber.unsubscribe [97] 7 ⟨[], [], ⟨some ⟨[], false⟩, some ⟨false, []⟩⟩⟩ =
      (.ok (), ⟨[], [], ⟨some ⟨[], false⟩, some ⟨false, []⟩⟩⟩, [])) ∧
    (Subscriber.unsubscribe [97] 7 ⟨[], [([97], [5])], ⟨some ⟨[], false⟩, some ⟨false, []⟩⟩⟩ =
      (.ok (), ⟨[], [([97], [5])], ⟨some ⟨[], false⟩, some ⟨false, []⟩⟩⟩, [])) ∧
    (Subscriber.unsubscribe [97] 7 ⟨[], [([97], [5, 7])], ⟨some ⟨[], false⟩, some ⟨false, []⟩⟩⟩ =
      (.ok (), ⟨[], [([97], [5])], ⟨some ⟨[], false⟩, some ⟨false, []⟩⟩⟩,
        [(7, .qUnsubscribed [97])])) ∧
    (Subscriber.unsubscribe [97] 7 ⟨[], [([97], [7])], ⟨some ⟨[], false⟩, some ⟨false, []⟩⟩⟩ =
      (.ok (), ⟨[], [([97], [7])],
        ⟨some ⟨[], false⟩, some ⟨false, serialize (cmdArr unsubscribeWord [97])⟩⟩⟩, [])) ∧
    (Subscriber.dispatch (some (.array (.cons (.bulkString unsubscribeLit)
        (.cons (.bulkString [97]) (.cons (.integer 1) .nil)))))
        ⟨[], [([97], [7])], ⟨some ⟨[], false⟩, some ⟨false, []⟩⟩⟩ =
      (.ok (), ⟨[], [], ⟨some ⟨[], false⟩, some ⟨false, []⟩⟩⟩,
        [(7, Event.qUnsubscribed [97])])) := by
  refine ⟨?_, ?_, ?_, ?_, ?_⟩
  · exact (spec_C3_unsubscribe_cases [97] 7
      ⟨[], [], ⟨some ⟨[], false⟩, some ⟨false, []⟩⟩⟩).1 (by decide)
  · exact (spec_C3_unsubscribe_cases [97] 7
      ⟨[], [([97], [5])], ⟨some ⟨[], false⟩, some ⟨false, []⟩⟩⟩).2.1 [5]
        (by decide) (by decide)
  · exact (spec_C3_unsubscribe_cases [97] 7
      ⟨[], [([97], [5, 7])], ⟨some ⟨[], false⟩, some ⟨false, []⟩⟩⟩).2.2.1 [5, 7]
        (by decide) (by decide) (by decide)
  · exact (spec_C3_unsubscribe_cases [97] 7
      ⟨[], [([97], [7])], ⟨some ⟨[], false⟩, some ⟨false, []⟩⟩⟩).2.2.2.1 ⟨false, []⟩
        (by decide) (by decide) (by decide)
  · exact (spec_C3_unsubscribe_cases [97] 7
      ⟨[], [([97], [7])], ⟨some ⟨[], false⟩, some ⟨false, []⟩⟩⟩).2.2.2.2 [7] 1
        (by decide) (by decide)

/-! ## Claim C9 -/

/-- C9 (refuted by the code): when the connection is found closed while sending the
UNSUBSCRIBE for the last bound consumer, the `except` handler evaluates `self.conn`
— an attribute that does not exist, the field is `self._conn` — so the call raises
the built-in AttributeError instead of ConnectionClosedError.  The connection is
disconnected, but by `Connection.send` itself, before the handler runs.  Evaluated
here: channel "a" subscribed with sole consumer 5 over a connection whose reader is
at EOF. -/
theorem spec_C9_attr_error :
    Subscriber.unsubscribe [97] 5 ⟨[], [([97], [5])], ⟨some ⟨[], true⟩, some ⟨false, []⟩⟩⟩ =
      (.error .attrErr, ⟨[], [([97], [5])], ⟨none, none⟩⟩, []) := by
  decide

/-! ## Claim C10 -/

/-- C10: for every push frame shaped as a three-element array whose first element is
the BulkString "subscribe", "message" or "unsubscribe" and whose second element is a
BulkString of channel-name bytes that are not valid ASCII, the dispatch step of
run_forever disconnects the connection and raises UnexpectedResponseError, and no
event is delivered to any consumer queue. -/
theorem spec_C10_nonascii_channel (st : SubState) (kind chb : Bytes) (e2 : Value)
    (hk : kind = subscribeLit ∨ kind = messageLit ∨ kind = unsubscribeLit)
    (hna : chb.all (fun c => c < 128) = false) :
    Subscriber.dispatch (some (.array (.cons (.bulkString kind)
        (.cons (.bulkString chb) (.cons e2 .nil))))) st =
      (.error .unexpectedResponse, { st with conn := st.conn.disconnect }, []) := by
  rcases hk with rfl | rfl | rfl <;> cases e2 <;>
    simp [Subscriber.dispatch, Subscriber.dispatchErr, subscribeLit, messageLit,
      unsubscribeLit, hna]

/-- Witness for C10: a subscribe push for the non-ASCII channel name [200]. -/
theorem spec_C10_nonascii_channel_witness :
    Subscriber.dispatch (some (.array (.cons (.bulkString subscribeLit)
        (.cons (.bulkString [200]) (.cons (.integer 1) .nil)))))
        ⟨[([200], [5])], [], ⟨some ⟨[], false⟩, some ⟨false, []⟩⟩⟩ =
      (.error .unexpectedResponse, ⟨[([200], [5])], [], ⟨none, none⟩⟩, []) :=
  spec_C10_nonascii_channel ⟨[([200], [5])], [], ⟨some ⟨[], false⟩, some ⟨false, []⟩⟩⟩
    subscribeLit [200] (.integer 1) (Or.inl rfl) (by decide)

/-! ## Dictionary lemmas for the Subscriber invariant -/

theorem lookupA_eq_none_iff (k : Bytes) (m : ChMap) :
    lookupA k m = none ↔ k ∉ m.map Prod.fst := by
  induction m with
  | nil => simp [lookupA]
  | cons e rest ih =>
    obtain ⟨k', v⟩ := e
    by_cases h : k' = k
    · subst h
      simp [lookupA]
    · rw [lookupA, if_neg h, ih]
      simp only [List.map_cons, List.mem_cons]
      constructor
      · intro hk hor
        rcases hor with rfl | hmem
        · exact h rfl
        · exact hk hmem
      · intro hk hmem
        exact hk (Or.inr hmem)

theorem lookupA_mem {k : Bytes} {l : List Nat} {m : ChMap} (h : lookupA k m = some l) :
    (k, l) ∈ m := by
  induction m with
  | nil => simp [lookupA] at h
  | cons e rest ih =>
    obtain ⟨k', v⟩ := e
    by_cases hk : k' = k
    · subst hk
      rw [lookupA, if_pos rfl] at h
      obtain rfl : v = l := by simpa using h
      exact List.mem_cons_self _ _
    · rw [lookupA, if_neg hk] at h
      exact List.mem_cons_of_mem _ (ih h)

theorem mem_setA {e : Bytes × List Nat} {k : Bytes} {v : List Nat} {m : ChMap}
    (h : e ∈ setA k v m) : e = (k, v) ∨ e ∈ m := by
  induction m with
  | nil =>
    left
    simpa [setA] using h
  | cons e' rest ih =>
    obtain ⟨k', v'⟩ := e'
    by_cases hk : k' = k
    · subst hk
      simp only [setA, if_pos rfl] at h
      rcases List.mem_cons.mp h with rfl | hm
      · left; rfl
      · right; exact List.mem_cons_of_mem _ hm
    · simp only [setA, if_neg hk] at h
      rcases List.mem_cons.mp h with rfl | hm
      · right; exact List.mem_cons_self _ _
      · rcases ih hm with h1 | h1
        · left; exact h1
        · right; exact List.mem_cons_of_mem _ h1

theorem lookupA_setA_ne {k' k : Bytes} (h : k' ≠ k) (v : List Nat) (m : ChMap) :
    lookupA k' (setA k v m) = lookupA k' m := by
  induction m with
  | nil =>
    show lookupA k' [(k, v)] = none
    simp only [lookupA]
    rw [if_neg (fun hh : k = k' => h hh.symm)]
  | cons e rest ih =>
    obtain ⟨k'', v''⟩ := e
    by_cases hk : k'' = k
    · subst hk
      simp only [setA, eq_self_iff_true, if_true, lookupA]
      rw [if_neg (fun hh => h hh.symm), if_neg (fun hh => h hh.symm)]
    · simp only [setA, if_neg hk, lookupA, ih]

theorem map_fst_setA (k : Bytes) (v : List Nat) (m : ChMap) :
    (setA k v m).map Prod.fst =
      if k ∈ m.map Prod.fst then m.map Prod.fst else m.map Prod.fst ++ [k] := by
  induction m with
  | nil => simp [setA]
  | cons e rest ih =>
    obtain ⟨k', v'⟩ := e
    by_cases hk : k' = k
    · subst hk
      simp [setA]
    · simp only [setA, if_neg hk, List.map_cons, ih]
      by_cases hm : k ∈ rest.map Prod.fst
      · rw [if_pos hm, if_pos (by simp [hm])]
      · rw [if_neg hm, if_neg (by
          simp only [List.mem_cons]
          push_neg
          exact ⟨fun hh => hk hh.symm, hm⟩)]
        simp

theorem keysNodup_setA {k : Bytes} {v : List Nat} {m : ChMap} (h : KeysNodup m) :
    KeysNodup (setA k v m) := by
  unfold KeysNodup at *
  rw [map_fst_setA]
  split
  · exact h
  · rename_i hk
    simp [List.nodup_append, h, hk]

theorem mem_popA {e : Bytes × List Nat} {k : Bytes} {m : ChMap} (h : e ∈ popA k m) :
    e ∈ m := by
  induction m with
  | nil => simp [popA] at h
  | cons e' rest ih =>
    obtain ⟨k', v'⟩ := e'
    by_cases hk : k' = k
    · subst hk
      simp only [popA, if_pos rfl] at h
      exact List.mem_cons_of_mem _ h
    · simp only [popA, if_neg hk] at h
      rcases List.mem_cons.mp h with rfl | hm
      · exact List.mem_cons_self _ _
      · exact List.mem_cons_of_mem _ (ih hm)

theorem map_fst_popA_sublist (k : Bytes) (m : ChMap) :
    ((popA k m).map Prod.fst).Sublist (m.map Prod.fst) := by
  induction m with
  | nil => simp [popA]
  | cons e rest ih =>
    obtain ⟨k', v'⟩ := e
    by_cases hk : k' = k
    · subst hk
      simp only [popA, eq_self_iff_true, if_true, List.map_cons]
      exact (List.Sublist.refl _).cons _
    · simp only [popA, if_neg hk, List.map_cons]
      exact ih.cons₂ _

theorem keysNodup_popA {k : Bytes} {m : ChMap} (h : KeysNodup m) : KeysNodup (popA k m) :=
  (map_fst_popA_sublist k m).nodup h

theorem popA_mem_fst_ne (k : Bytes) (m : ChMap) :
    KeysNodup m → ∀ e ∈ popA k m, e.1 ≠ k := by
  induction m with
  | nil =>
    intro _ e he
    simp [popA] at he
  | cons e' rest ih =>
    obtain ⟨k', v'⟩ := e'
    intro hn e he
    rw [KeysNodup, List.map_cons, List.nodup_cons] at hn
    by_cases hk : k' = k
    · subst hk
      simp only [popA, eq_self_iff_true, if_true] at he
      intro hcontra
      have hmem : e.1 ∈ rest.map Prod.fst := List.mem_map_of_mem Prod.fst he
      rw [hcontra] at hmem
      exact hn.1 hmem
    · simp only [popA, if_neg hk] at he
      rcases List.mem_cons.mp he with rfl | hm
      · simpa using hk
      · exact ih hn.2 e hm

theorem lookupA_popA_none {k c : Bytes} {m : ChMap} (h : lookupA k m = none) :
    lookupA k (popA c m) = none := by
  rw [lookupA_eq_none_iff] at h ⊢
  exact fun hmem => h ((map_fst_popA_sublist c m).subset hmem)

/-! ## Invariant preservation by the Subscriber operations -/

theorem subscribe_preserves_keyinv (ch : Bytes) (q : Nat) (st : SubState)
    (h : ChKeyInv st) : ChKeyInv (Subscriber.subscribe ch q st).2.1 := by
  obtain ⟨h1, h2, h3⟩ := h
  cases hp : lookupA ch st.pending with
  | some l =>
    simp only [Subscriber.subscribe, hp]
    refine ⟨keysNodup_setA h1, h2, ?_⟩
    intro e he
    rcases mem_setA he with rfl | he'
    · exact h3 (ch, l) (lookupA_mem hp)
    · exact h3 e he'
  | none =>
    cases hs : lookupA ch st.subscribed with
    | some l =>
      simp only [Subscriber.subscribe, hp, hs]
      refine ⟨h1, keysNodup_setA h2, ?_⟩
      intro e he
      have hne : e.1 ≠ ch := by
        intro hc
        have hmem : e.1 ∈ st.pending.map Prod.fst := List.mem_map_of_mem Prod.fst he
        rw [hc] at hmem
        exact (lookupA_eq_none_iff ch st.pending).mp hp hmem
      rw [lookupA_setA_ne hne]
      exact h3 e he
    | none =>
      simp only [Subscriber.subscribe, hp, hs]
      rcases hsv : Conn.sendVal (cmdArr subscribeWord ch) st.conn with ⟨r, c1⟩
      cases r with
      | error e0 =>
        simp only [hsv]
        exact ⟨h1, h2, h3⟩
      | ok u =>
        simp only [hsv]
        refine ⟨keysNodup_setA h1, h2, ?_⟩
        intro e he
        rcases mem_setA he with rfl | he'
        · exact hs
        · exact h3 e he'

theorem subscribe_preserves_inv (ch : Bytes) (q : Nat) (st : SubState) (h : ChInv st)
    (hq1 : q ∉ (lookupA ch st.pending).getD [])
    (hq2 : q ∉ (lookupA ch st.subscribed).getD []) :
    ChInv (Subscriber.subscribe ch q st).2.1 := by
  obtain ⟨h1, h2, h3, h4, h5⟩ := h
  cases hp : lookupA ch st.pending with
  | some l =>
    rw [hp] at hq1
    simp only [Option.getD_some] at hq1
    simp only [Subscriber.subscribe, hp]
    refine ⟨keysNodup_setA h1, h2, ?_, ?_, h5⟩
    · intro e he
      rcases mem_setA he with rfl | he'
      · exact h3 (ch, l) (lookupA_mem hp)
      · exact h3 e he'
    · intro e he
      rcases mem_setA he with rfl | he'
      · have hl : l.Nodup := h4 (ch, l) (lookupA_mem hp)
        simp [List.nodup_append, hl, hq1]
      · exact h4 e he'
  | none =>
    cases hs : lookupA ch st.subscribed with
    | some l =>
      rw [hs] at hq2
      simp only [Option.getD_some] at hq2
      simp only [Subscriber.subscribe, hp, hs]
      refine ⟨h1, keysNodup_setA h2, ?_, h4, ?_⟩
      · intro e he
        have hne : e.1 ≠ ch := by
          intro hc
          have hmem : e.1 ∈ st.pending.map Prod.fst := List.mem_map_of_mem Prod.fst he
          rw [hc] at hmem
          exact (lookupA_eq_none_iff ch st.pending).mp hp hmem
        rw [lookupA_setA_ne hne]
        exact h3 e he
      · intro e he
        rcases mem_setA he with rfl | he'
        · have hl : l.Nodup := h5 (ch, l) (lookupA_mem hs)
          simp [List.nodup_append, hl, hq2]
        · exact h5 e he'
    | none =>
      simp only [Subscriber.subscribe, hp, hs]
      rcases hsv : Conn.sendVal (cmdArr subscribeWord ch) st.conn with ⟨r, c1⟩
      cases r with
      | error e0 =>
        simp only [hsv]
        exact ⟨h1, h2, h3, h4, h5⟩
      | ok u =>
        simp only [hsv]
        refine ⟨keysNodup_setA h1, h2, ?_, ?_, h5⟩
        · intro e he
          rcases mem_setA he with rfl | he'
          · exact hs
          · exact h3 e he'
        · intro e he
          rcases mem_setA he with rfl | he'
          · simp
          · exact h4 e he'

theorem unsubscribe_preserves_inv (ch : Bytes) (q : Nat) (st : SubState)
    (h : ChInv st) : ChInv (Subscriber.unsubscribe ch q st).2.1 := by
  obtain ⟨h1, h2, h3, h4, h5⟩ := h
  cases hs : lookupA ch st.subscribed with
  | none =>
    simp only [Subscriber.unsubscribe, hs]
    exact ⟨h1, h2, h3, h4, h5⟩
  | some l =>
    by_cases hq : q ∈ l
    · by_cases hlen : 1 < l.length
      · simp only [Subscriber.unsubscribe, hs, if_pos hq, if_pos hlen]
        refine ⟨h1, keysNodup_setA h2, ?_, h4, ?_⟩
        · intro e he
          have hne : e.1 ≠ ch := by
            intro hc
            have := h3 e he
            rw [hc, hs] at this
            exact Option.noConfusion this
          rw [lookupA_setA_ne hne]
          exact h3 e he
        · intro e he
          rcases mem_setA he with rfl | he'
          · exact (h5 (ch, l) (lookupA_mem hs)).erase q
          · exact h5 e he'
      · simp only [Subscriber.unsubscribe, hs, if_pos hq, if_neg hlen]
        rcases hsv : Conn.sendVal (cmdArr unsubscribeWord ch) st.conn with ⟨r, c1⟩
        cases r with
        | error e0 =>
          simp only [hsv]
          exact ⟨h1, h2, h3, h4, h5⟩
        | ok u =>
          simp only [hsv]
          exact ⟨h1, h2, h3, h4, h5⟩
    · simp only [Subscriber.unsubscribe, hs, if_neg hq]
      exact ⟨h1, h2, h3, h4, h5⟩

theorem dispatch_state_cases (ret : Option Value) (st : SubState) :
    (Subscriber.dispatch ret st).2.1 = st ∨
    (Subscriber.dispatch ret st).2.1 = { st with conn := st.conn.disconnect } ∨
    (∃ chb chq, lookupA chb st.pending = some chq ∧
      (Subscriber.dispatch ret st).2.1 =
        { st with pending := popA chb st.pending,
                  subscribed := setA chb chq st.subscribed }) ∨
    (∃ chb chq, lookupA chb st.subscribed = some chq ∧
      (Subscriber.dispatch ret st).2.1 = { st with subscribed := popA chb st.subscribed }) := by
  unfold Subscriber.dispatch Subscriber.dispatchErr
  repeat' split
  all_goals first
    | exact Or.inl rfl
    | exact Or.inr (Or.inl rfl)
    | exact Or.inr (Or.inr (Or.inl ⟨_, _, by assumption, rfl⟩))
    | exact Or.inr (Or.inr (Or.inr ⟨_, _, by assumption, rfl⟩))

theorem dispatch_preserves_inv (ret : Option Value) (st : SubState) (h : ChInv st) :
    ChInv (Subscriber.dispatch ret st).2.1 := by
  obtain ⟨h1, h2, h3, h4, h5⟩ := h
  rcases dispatch_state_cases ret st with heq | heq | ⟨chb, chq, hl, heq⟩ |
    ⟨chb, chq, hl, heq⟩ <;> rw [heq]
  · exact ⟨h1, h2, h3, h4, h5⟩
  · exact ⟨h1, h2, h3, h4, h5⟩
  · refine ⟨keysNodup_popA h1, keysNodup_setA h2, ?_, ?_, ?_⟩
    · intro e he
      have hne : e.1 ≠ chb := popA_mem_fst_ne chb st.pending h1 e he
      rw [lookupA_setA_ne hne]
      exact h3 e (mem_popA he)
    · intro e he
      exact h4 e (mem_popA he)
    · intro e he
      rcases mem_setA he with rfl | he'
      · exact h4 (chb, chq) (lookupA_mem hl)
      · exact h5 e he'
  · refine ⟨h1, keysNodup_popA h2, ?_, h4, ?_⟩
    · intro e he
      exact lookupA_popA_none (h3 e he)
    · intro e he
      exact h5 e (mem_popA he)

/-! ## Claim C5 -/

/-- C5 counterexample: the claim as stated is false.  From the invariant-satisfying
state whose pending map is a single channel "a" bound to queue 5, a second
subscribe("a", 5) call appends queue 5 again — the code has no duplicate check — and
queue 5 then occurs twice in the channel's pending list. -/
theorem spec_C5_duplicate_queue_cex :
    ChInv ⟨[([97], [5])], [], ⟨some ⟨[], false⟩, some ⟨false, []⟩⟩⟩ ∧
    Subscriber.subscribe [97] 5 ⟨[([97], [5])], [], ⟨some ⟨[], false⟩, some ⟨false, []⟩⟩⟩ =
      (.ok (), ⟨[([97], [5, 5])], [], ⟨some ⟨[], false⟩, some ⟨false, []⟩⟩⟩, []) ∧
    ¬ ChInv ⟨[([97], [5, 5])], [], ⟨some ⟨[], false⟩, some ⟨false, []⟩⟩⟩ :=
  ⟨by decide, by decide, by decide⟩

/-- C5 as amended: after every operation the key-level invariant (each channel in at
most one of the two maps, no duplicate keys) holds unconditionally, and the full
invariant — which additionally requires each consumer queue to occur at most once per
channel list — is preserved by unsubscribe and by dispatch unconditionally, and by
subscribe whenever the queue being registered is not already in that channel's
pending or subscribed list. -/
theorem spec_C5_invariant_amended :
    (∀ (ch : Bytes) (q : Nat) (st : SubState), ChKeyInv st →
      ChKeyInv (Subscriber.subscribe ch q st).2.1) ∧
    (∀ (ch : Bytes) (q : Nat) (st : SubState), ChInv st →
      q ∉ (lookupA ch st.pending).getD [] → q ∉ (lookupA ch st.subscribed).getD [] →
      ChInv (Subscriber.subscribe ch q st).2.1) ∧
    (∀ (ch : Bytes) (q : Nat) (st : SubState), ChInv st →
      ChInv (Subscriber.unsubscribe ch q st).2.1) ∧
    (∀ (ret : Option Value) (st : SubState), ChInv st →
      ChInv (Subscriber.dispatch ret st).2.1) :=
  ⟨subscribe_preserves_keyinv, subscribe_preserves_inv, unsubscribe_preserves_inv,
    dispatch_preserves_inv⟩

/-- Witness for the amended C5: a fresh subscription over a live connection, a
shared-channel unsubscribe, and a subscribe push, each from a concrete
invariant-satisfying state. -/
theorem spec_C5_invariant_amended_witness :
    ChInv (Subscriber.subscribe [97] 0
      ⟨[], [], ⟨some ⟨[], false⟩, some ⟨false, []⟩⟩⟩).2.1 ∧
    ChInv (Subscriber.unsubscribe [97] 5
      ⟨[], [([97], [5, 7])], ⟨some ⟨[], false⟩, some ⟨false, []⟩⟩⟩).2.1 ∧
    ChInv (Subscriber.dispatch (some (.array (.cons (.bulkString subscribeLit)
      (.cons (.bulkString [97]) (.cons (.integer 1) .nil)))))
      ⟨[([97], [5])], [], ⟨some ⟨[], false⟩, some ⟨false, []⟩⟩⟩).2.1 :=
  ⟨spec_C5_invariant_amended.2.1 [97] 0 ⟨[], [], ⟨some ⟨[], false⟩, some ⟨false, []⟩⟩⟩
      (by decide) (by decide) (by decide),
    spec_C5_invariant_amended.2.2.1 [97] 5
      ⟨[], [([97], [5, 7])], ⟨some ⟨[], false⟩, some ⟨false, []⟩⟩⟩ (by decide),
    spec_C5_invariant_amended.2.2.2 (some (.array (.cons (.bulkString subscribeLit)
      (.cons (.bulkString [97]) (.cons (.integer 1) .nil)))))
      ⟨[([97], [5])], [], ⟨some ⟨[], false⟩, some ⟨false, []⟩⟩⟩ (by decide)⟩

end RedClient
